import Mathlib

/-!
Shallow embedding of the epidemiological time-series aggregation core of the
UK-COVID-website repository (src/covid_cases.py, src/covid_deaths.py,
src/uk_website.py).  Metric values and populations are modelled as rationals
(exact arithmetic standing for the float arithmetic of pandas), dates as
natural numbers (a day index; the source's fixed calendar date `2020-07-01`
becomes an `anomalyDate` parameter), and fallible pandas operations
(`Index[0]` on an empty index, `iloc` with an out-of-bounds positional
indexer) as `Option`-returning functions where `none` models a raised
`IndexError`.
-/

namespace UKCovid

/-- One row of the regional cases frame after the column rename in
`Cases.prepare_regional_cases_data` (src/covid_cases.py line 73):
`date`, `specimen` (newCasesBySpecimenDate), `publish`
(newCasesByPublishDate).  The area columns are dropped here because
`july_1` acts on one area group at a time. -/
structure Row where
  date : ℕ
  specimen : ℚ
  publish : ℚ
deriving DecidableEq, Repr, Inhabited

/-- Positional selection `df.iloc[r]` for a single integer `r`:
a negative index counts from the end (`r + len`), and an index that is
out of bounds after that adjustment raises `IndexError` (= `none`). -/
def ilocGet (df : List Row) (r : ℤ) : Option Row :=
  let j : ℤ := if r < 0 then r + df.length else r
  if 0 ≤ j then df.get? j.toNat else none

/-- The six positional indices selected by `july_1`
(src/covid_cases.py lines 82-83):
`list(range(i - 3, i)) + list(range(i + 1, i + 4))` as integers. -/
def neighborIdxs (i : ℕ) : List ℤ :=
  [(i : ℤ) - 3, (i : ℤ) - 2, (i : ℤ) - 1, (i : ℤ) + 1, (i : ℤ) + 2, (i : ℤ) + 3]

/-- `july_1` from `Cases.prepare_regional_cases_data`
(src/covid_cases.py lines 79-86), applied to one area group:

* `row_july_1 = df[df['date']=='2020-07-01'].index[0]` — the first row
  index whose date is the anomaly date; `Index[0]` on an empty index
  raises (`none`);
* select the 3 rows before and the 3 rows after with `iloc` (negative
  indices wrap to the end of the frame, indices past the end raise);
* `mean` of the `publish` column of the selection;
* `df.loc[df['date']=='2020-07-01', 'publish'] = mean` overwrites the
  `publish` value of every row at the anomaly date. -/
def july_1 (anomalyDate : ℕ) (df : List Row) : Option (List Row) :=
  match List.findIdx? (fun r => r.date == anomalyDate) df with
  | none => none
  | some i =>
    match (neighborIdxs i).mapM (ilocGet df) with
    | none => none
    | some sel =>
      let m : ℚ := ((sel.map Row.publish).sum) / (sel.length : ℚ)
      some (df.map (fun r =>
        if r.date == anomalyDate then { r with publish := m } else r))

/-- The arithmetic mean of the `publish` values of the 3 rows before and
the 3 rows after position `i` (6 values, excluding row `i` itself). -/
def anomalyMean (df : List Row) (i : ℕ) : ℚ :=
  ((df.getD (i - 3) default).publish + (df.getD (i - 2) default).publish
    + (df.getD (i - 1) default).publish + (df.getD (i + 1) default).publish
    + (df.getD (i + 2) default).publish + (df.getD (i + 3) default).publish) / 6

/-- The synthetic 7-row window of the specification: `publish` values
`[10, 10, 10, 100, 10, 10, 10]` at dates `0..6`, anomaly at date 3. -/
def ex7 : List Row :=
  [⟨0, 0, 10⟩, ⟨1, 0, 10⟩, ⟨2, 0, 10⟩, ⟨3, 0, 100⟩,
   ⟨4, 0, 10⟩, ⟨5, 0, 10⟩, ⟨6, 0, 10⟩]

/-- `Series.rolling(window=w, min_periods=m).mean()` on a date-ascending
series (src/covid_cases.py lines 44-45 use `window=7` with the pandas
default `min_periods = window`; lines 96-97 use `window=7, min_periods=1`).
Output position `i` looks at the trailing window of the `min (i+1) w` most
recent samples; the mean is defined when at least `m` observations are in
the window, else the output is missing (`NaN`, modelled `none`). -/
def rollingMean (w m : ℕ) (xs : List ℚ) : List (Option ℚ) :=
  (List.range xs.length).map (fun i =>
    let win := (xs.take (i + 1)).drop (i + 1 - w)
    if m ≤ win.length then some (win.sum / (win.length : ℚ)) else none)

/-- A row of an area-keyed metric frame (regional or council data);
`area_code`/`area_name` identify the group, `value` the metric column. -/
structure AreaRow where
  area_code : String
  area_name : String
  value : ℚ
deriving DecidableEq, Repr, Inhabited

/-- The grouping key used by `groupby(['area_name', 'area_code'])`
(src/covid_cases.py lines 93-94; the council aggregation at lines 139-140
groups by the same two columns in the other order, which yields the same
partition). -/
def groupKey (r : AreaRow) : String × String := (r.area_name, r.area_code)

/-- The metric series of one group: the values of the rows carrying key
`k`, in frame order (the frame is date-sorted, so this is the group's
date-sorted series). -/
def groupSeries (rows : List AreaRow) (k : String × String) : List ℚ :=
  (rows.filter (fun r => decide (groupKey r = k))).map AreaRow.value

/-- The position of row `j` inside its own group (0-based): pandas
`groupby(...).apply` computes per-group results indexed by the original
row labels, and assigning them back aligns each row with the value at its
own position within its group. -/
def posInGroup (rows : List AreaRow) (j : ℕ) : ℕ :=
  ((rows.take (j + 1)).filter
    (fun r => decide (groupKey r = groupKey (rows.getD j default)))).length - 1

/-- The grouped 7-day partial-window rolling mean
(src/covid_cases.py lines 93-98, src/covid_deaths.py lines 67-71):
row `j`'s smoothed value is the rolling mean of its own group's series at
`j`'s position within the group. -/
def groupedRollingMean (rows : List AreaRow) : List (Option ℚ) :=
  (List.range rows.length).map (fun j =>
    (rollingMean 7 1 (groupSeries rows (groupKey (rows.getD j default)))).getD
      (posInGroup rows j) none)

/-- Build an `AreaRow` of a given group key (name, code) and value. -/
def mkRow (k : String × String) (v : ℚ) : AreaRow := ⟨k.2, k.1, v⟩

/-- `population.groupby('Code', as_index=False)['population'].sum()`
(src/covid_cases.py lines 100-102, src/covid_deaths.py lines 73-75):
one output row per distinct `Code`, holding the sum of the `population`
values of all input rows with that code.  (pandas emits the groups in
sorted key order; the order of the entries is irrelevant to all lookups,
so the distinct keys are kept in order of occurrence here.) -/
def buildIndex (tbl : List (String × ℚ)) : List (String × ℚ) :=
  ((tbl.map Prod.fst).dedup).map
    (fun c => (c, ((tbl.filter (fun p => decide (p.1 = c))).map Prod.snd).sum))

/-- Population lookup backing the left merge on `area_code = Code`
(src/covid_cases.py lines 104-108): the population of the first index row
whose code matches, or `Missing` (the merge then leaves `NaN`). -/
def popLookup (idx : List (String × ℚ)) (code : String) : Option ℚ :=
  (idx.find? (fun p => decide (p.1 = code))).map Prod.snd

/-- A smoothed row entering rate normalization: its area code and the
value of the smoothed metric column. -/
structure SmoothedRow where
  area_code : String
  smoothed : ℚ
deriving DecidableEq, Repr, Inhabited

/-- The per-100,000 rate computation
(src/covid_cases.py lines 104-113): left-merge the population index onto
the rows by area code, then `rate = value / population * 100000`.  A row
whose code is missing from the index gets `NaN` (modelled `none`); no
error is raised and other rows are unaffected. -/
def normalize (idx : List (String × ℚ)) (rows : List SmoothedRow) :
    List (SmoothedRow × Option ℚ) :=
  rows.map (fun r =>
    (r, (popLookup idx r.area_code).map (fun p => r.smoothed / p * 100000)))

/-- `x.iloc[-7:].sum()` for one group's series
(src/covid_cases.py lines 141-142): the sum of the last `min 7 n` values.
A Python slice never raises on a short list. -/
def weeklyTotal (xs : List ℚ) : ℚ := (xs.drop (xs.length - 7)).sum

/-- The distinct group keys of a frame, one per area. -/
def councilKeys (rows : List AreaRow) : List (String × String) :=
  (rows.map groupKey).dedup

/-- `grouped_council['publish'].apply(lambda x: x.iloc[-7:].sum())`
(src/covid_cases.py lines 139-142): one row per area group, holding the
sum of the last 7 rows of that group's date-sorted series. -/
def councilWeek (rows : List AreaRow) : List ((String × String) × ℚ) :=
  (councilKeys rows).map (fun k => (k, weeklyTotal (groupSeries rows k)))

/-- A council area with exactly 3 rows of value 5 each
(code `E1`, name `A`). -/
def rows3 : List AreaRow := [⟨"E1", "A", 5⟩, ⟨"E1", "A", 5⟩, ⟨"E1", "A", 5⟩]

end UKCovid

namespace UKCovid

/-! ### Helper lemmas about `july_1` -/

/-- `iloc` at a nonnegative in-range position returns that row. -/
lemma ilocGet_coe (df : List Row) (j : ℕ) (h : j < df.length) :
    ilocGet df (j : ℤ) = some (df.getD j default) := by
  simp only [ilocGet]
  rw [if_neg (show ¬ ((j : ℤ) < 0) by omega), if_pos (show (0 : ℤ) ≤ (j : ℤ) by omega)]
  simp [List.get?_eq_getElem?, List.getElem?_eq_getElem h, List.getD_eq_getElem?_getD]

/-- When position `i` has 3 rows on each side, the `iloc` selection of the
six neighbour indices succeeds and returns exactly those rows. -/
lemma mapM_neighbors (df : List Row) (i : ℕ) (h3 : 3 ≤ i) (hn : i + 3 < df.length) :
    (neighborIdxs i).mapM (ilocGet df) =
      some [df.getD (i - 3) default, df.getD (i - 2) default, df.getD (i - 1) default,
            df.getD (i + 1) default, df.getD (i + 2) default, df.getD (i + 3) default] := by
  have e1 : ((i : ℤ) - 3) = ((i - 3 : ℕ) : ℤ) := by omega
  have e2 : ((i : ℤ) - 2) = ((i - 2 : ℕ) : ℤ) := by omega
  have e3 : ((i : ℤ) - 1) = ((i - 1 : ℕ) : ℤ) := by omega
  have e4 : ((i : ℤ) + 1) = ((i + 1 : ℕ) : ℤ) := by omega
  have e5 : ((i : ℤ) + 2) = ((i + 2 : ℕ) : ℤ) := by omega
  have e6 : ((i : ℤ) + 3) = ((i + 3 : ℕ) : ℤ) := by omega
  simp only [neighborIdxs, e1, e2, e3, e4, e5, e6]
  rw [List.mapM_cons, List.mapM_cons, List.mapM_cons, List.mapM_cons, List.mapM_cons,
    List.mapM_cons, List.mapM_nil]
  rw [ilocGet_coe df (i - 3) (by omega), ilocGet_coe df (i - 2) (by omega),
    ilocGet_coe df (i - 1) (by omega), ilocGet_coe df (i + 1) (by omega),
    ilocGet_coe df (i + 2) (by omega), ilocGet_coe df (i + 3) (by omega)]
  rfl

/-- Success-case characterisation of `july_1`: with the anomaly row at
position `i` and 3 rows on each side, the output overwrites `publish`
with the neighbour mean at every anomaly-dated row and keeps all other
rows. -/
lemma july_1_found (a : ℕ) (df : List Row) (i : ℕ)
    (hfind : List.findIdx? (fun r => r.date == a) df = some i)
    (h3 : 3 ≤ i) (hn : i + 3 < df.length) :
    july_1 a df = some (df.map (fun r =>
      if r.date == a then { r with publish := anomalyMean df i } else r)) := by
  unfold july_1
  rw [hfind]
  dsimp only
  rw [mapM_neighbors df i h3 hn]
  dsimp only
  congr 1
  apply List.map_congr_left
  intro r _
  by_cases hr : r.date == a
  · simp only [hr, if_pos]
    congr 1
    simp [anomalyMean]
    ring
  · simp [hr]

/-- Inversion: whenever `july_1` succeeds, the output is the input with
`publish` overwritten by a single value `m` at the anomaly-dated rows. -/
lemma july_1_some (a : ℕ) (df out : List Row) (h : july_1 a df = some out) :
    ∃ m : ℚ, out = df.map (fun r =>
      if r.date == a then { r with publish := m } else r) := by
  unfold july_1 at h
  cases hf : List.findIdx? (fun r => r.date == a) df with
  | none => rw [hf] at h; exact absurd h (by simp)
  | some i =>
    rw [hf] at h
    dsimp only at h
    cases hm : (neighborIdxs i).mapM (ilocGet df) with
    | none => rw [hm] at h; exact absurd h (by simp)
    | some sel =>
      rw [hm] at h
      dsimp only at h
      exact ⟨_, (Option.some.inj h).symm⟩

/-- Over `Option`, `mapM` fails as soon as one element fails. -/
lemma mapM_option_eq_none {α β : Type} (f : α → Option β) (l : List α) (x : α)
    (hx : x ∈ l) (hfx : f x = none) : l.mapM f = none := by
  induction l with
  | nil => cases hx
  | cons a l ih =>
    rw [List.mapM_cons]
    rcases List.mem_cons.mp hx with rfl | hx'
    · rw [hfx]; rfl
    · cases hfa : f a with
      | none => rfl
      | some b => rw [ih hx']; rfl

/-- If no row carries the anomaly date, `Index[0]` raises: `july_1` errors. -/
lemma july_1_none_of_absent (a : ℕ) (df : List Row)
    (habs : ∀ r ∈ df, r.date ≠ a) : july_1 a df = none := by
  unfold july_1
  rw [List.findIdx?_eq_none_iff.mpr (fun r hr => by simpa using habs r hr)]

/-- If there are fewer than 3 rows after the anomaly row, `iloc` raises:
`july_1` errors. -/
lemma july_1_none_of_short (a : ℕ) (df : List Row) (i : ℕ)
    (hfind : List.findIdx? (fun r => r.date == a) df = some i)
    (hshort : df.length ≤ i + 3) : july_1 a df = none := by
  unfold july_1
  rw [hfind]
  dsimp only
  have hlast : ilocGet df ((i : ℤ) + 3) = none := by
    simp only [ilocGet]
    rw [if_neg (show ¬ (((i : ℤ) + 3) < 0) by omega),
      if_pos (show (0 : ℤ) ≤ (i : ℤ) + 3 by omega)]
    rw [List.get?_eq_none]
    omega
  rw [mapM_option_eq_none (ilocGet df) (neighborIdxs i) ((i : ℤ) + 3)
    (by simp [neighborIdxs]) hlast]

end UKCovid

namespace UKCovid

/-! ### Claim theorems about the anomaly correction -/

/-- C1: for every area group whose date-sorted series contains a row at
the anomaly date (first matching index `i`) with at least 3 rows before
it and 3 rows after it, `july_1` succeeds and replaces the `publish`
value at that row with the arithmetic mean of the 3 immediately
preceding and 3 immediately following rows' values (6 values, excluding
the anomaly row itself). -/
theorem july_1_replaces_anomaly_with_neighbor_mean (a : ℕ) (df : List Row) (i : ℕ)
    (hfind : List.findIdx? (fun r => r.date == a) df = some i)
    (h3 : 3 ≤ i) (hn : i + 3 < df.length) :
    ∃ out, july_1 a df = some out ∧ out.length = df.length ∧
      out.getD i default = { df.getD i default with publish := anomalyMean df i } := by
  refine ⟨_, july_1_found a df i hfind h3 hn, List.length_map _ _, ?_⟩
  have hi : i < df.length := by omega
  obtain ⟨hlt, hidx⟩ := List.findIdx?_eq_some_iff_findIdx_eq.mp hfind
  have h2 : ∀ j (hj : j < df.length), j = List.findIdx (fun r => r.date == a) df →
      ((df.getD j default).date == a) = true := by
    intro j hj hje
    subst hje
    rw [List.getD_eq_getElem _ _ hj]
    simpa using @List.findIdx_getElem _ (fun r => r.date == a) df (by omega)
  have hdate : ((df.getD i default).date == a) = true := h2 i hi hidx.symm
  rw [List.getD_eq_getElem _ _ (by rw [List.length_map]; exact hi),
    List.getElem_map, List.getD_eq_getElem _ _ hi]
  rw [List.getD_eq_getElem _ _ hi] at hdate
  rw [if_pos hdate]

/-- C1 witness: on the series `[10, 10, 10, 100, 10, 10, 10]` with the
anomaly at index 3, the corrected value is `10`. -/
theorem july_1_replaces_anomaly_with_neighbor_mean_witness :
    ∃ out, july_1 3 ex7 = some out ∧ (out.getD 3 default).publish = 10 := by
  obtain ⟨out, h1, _, h2⟩ :=
    july_1_replaces_anomaly_with_neighbor_mean 3 ex7 3 (by decide) (by norm_num) (by decide)
  refine ⟨out, h1, ?_⟩
  rw [h2]
  show anomalyMean ex7 3 = 10
  norm_num [anomalyMean, ex7]

/-- C3 counterexample: on a one-row group whose series does not contain
the anomaly date, `july_1` raises (`Index[0]` on an empty index is an
`IndexError`, modelled `none`) instead of returning the series
unchanged, so the claimed no-op skip is false. -/
theorem july_1_missing_anchor_not_noop :
    july_1 3 [({ date := 0, specimen := 1, publish := 2 } : Row)] = none ∧
      july_1 3 [({ date := 0, specimen := 1, publish := 2 } : Row)] ≠
        some [({ date := 0, specimen := 1, publish := 2 } : Row)] := by
  have h : july_1 3 [({ date := 0, specimen := 1, publish := 2 } : Row)] = none := by
    norm_num [july_1, List.findIdx?_cons]
  exact ⟨h, by rw [h]; simp⟩

/-- C3 amended: for every area group whose series has no row at the
anomaly date, and for every group where the first anomaly-dated row has
fewer than 3 rows after it, `july_1` fails with an `IndexError`
(modelled `none`) rather than performing a no-op skip. -/
theorem july_1_errors_on_missing_or_short_anchor (a : ℕ) (df : List Row) :
    ((∀ r ∈ df, r.date ≠ a) → july_1 a df = none) ∧
      (∀ i, List.findIdx? (fun r => r.date == a) df = some i →
        df.length ≤ i + 3 → july_1 a df = none) :=
  ⟨fun habs => july_1_none_of_absent a df habs,
   fun i hfind hshort => july_1_none_of_short a df i hfind hshort⟩

/-- C3 amended witness: a series without the anomaly date errors, and a
one-row series whose only row is the anomaly date errors. -/
theorem july_1_errors_on_missing_or_short_anchor_witness :
    july_1 9 [({ date := 0, specimen := 1, publish := 2 } : Row)] = none ∧
      july_1 5 [({ date := 5, specimen := 1, publish := 2 } : Row)] = none := by
  constructor
  · exact (july_1_errors_on_missing_or_short_anchor 9
      [{ date := 0, specimen := 1, publish := 2 }]).1 (by decide)
  · exact (july_1_errors_on_missing_or_short_anchor 5
      [{ date := 5, specimen := 1, publish := 2 }]).2 0 (by decide) (by norm_num)

/-- C4: whenever `july_1` succeeds on an area group, only rows whose
date equals the anomaly date may differ from the input; every row at any
other date is identical (all three fields) to its input row, and the
length is unchanged. -/
theorem july_1_touches_only_anomaly_row (a : ℕ) (df out : List Row)
    (h : july_1 a df = some out) :
    out.length = df.length ∧
      ∀ j : ℕ, (df.getD j default).date ≠ a →
        out.getD j default = df.getD j default := by
  obtain ⟨m, rfl⟩ := july_1_some a df out h
  refine ⟨List.length_map _ _, ?_⟩
  intro j hj
  rw [List.getD_eq_getElem?_getD, List.getD_eq_getElem?_getD, List.getElem?_map]
  cases hje : df[j]? with
  | none => rfl
  | some r =>
    have hr : (df.getD j default) = r := by
      rw [List.getD_eq_getElem?_getD, hje]; rfl
    rw [hr] at hj
    show (if (r.date == a) = true then { r with publish := m } else r) = r
    rw [if_neg (by simpa using hj)]

/-- C4 witness: on the synthetic 7-row window, the row at index 0 (date
0, not the anomaly date 3) is bit-identical after correction. -/
theorem july_1_touches_only_anomaly_row_witness :
    ∃ out, july_1 3 ex7 = some out ∧ out.getD 0 default = ex7.getD 0 default := by
  have h1 := july_1_found 3 ex7 3 (by decide) (by norm_num) (by decide)
  exact ⟨_, h1, (july_1_touches_only_anomaly_row 3 ex7 _ h1).2 0 (by decide)⟩

/-- C10: whenever `july_1` succeeds, it modifies only the `publish`
column: the `specimen` column (and the date column) is unchanged at
every row, including the anomaly row itself. -/
theorem july_1_preserves_specimen (a : ℕ) (df out : List Row)
    (h : july_1 a df = some out) :
    out.map Row.specimen = df.map Row.specimen ∧
      out.map Row.date = df.map Row.date := by
  obtain ⟨m, rfl⟩ := july_1_some a df out h
  rw [List.map_map, List.map_map]
  constructor <;>
  · apply List.map_congr_left
    intro r _
    by_cases hr : r.date = a <;> simp [hr]

/-- C10 witness: on the synthetic 7-row window the whole `specimen`
column is unchanged by the correction. -/
theorem july_1_preserves_specimen_witness :
    ∃ out, july_1 3 ex7 = some out ∧ out.map Row.specimen = ex7.map Row.specimen := by
  have h1 := july_1_found 3 ex7 3 (by decide) (by norm_num) (by decide)
  exact ⟨_, h1, (july_1_preserves_specimen 3 ex7 _ h1).1⟩

end UKCovid

namespace UKCovid

/-! ### Rolling-average lemmas -/

lemma rollingMean_length (w m : ℕ) (xs : List ℚ) :
    (rollingMean w m xs).length = xs.length := by
  simp [rollingMean]

lemma rollingMean_getD (w m : ℕ) (xs : List ℚ) (i : ℕ) (hi : i < xs.length) :
    (rollingMean w m xs).getD i none =
      (if m ≤ ((xs.take (i + 1)).drop (i + 1 - w)).length
        then some (((xs.take (i + 1)).drop (i + 1 - w)).sum /
          ((((xs.take (i + 1)).drop (i + 1 - w)).length : ℕ) : ℚ))
        else none) := by
  rw [rollingMean, List.getD_eq_getElem?_getD, List.getElem?_map,
    List.getElem?_range hi]
  rfl

lemma win_length (w : ℕ) (xs : List ℚ) (i : ℕ) (hi : i < xs.length) :
    ((xs.take (i + 1)).drop (i + 1 - w)).length = min w (i + 1) := by
  rw [List.length_drop, List.length_take]
  omega

lemma win_eq (w : ℕ) (xs : List ℚ) (i : ℕ) :
    (xs.take (i + 1)).drop (i + 1 - w) = (xs.drop (i + 1 - w)).take (min w (i + 1)) := by
  rw [List.drop_take]
  congr 1
  omega

/-- C5: the rolling-average engine with window 7 preserves length; under
the strict policy (`min_periods = window`, the pandas default of
`rolling(window=7).mean()` at src/covid_cases.py lines 44-45) the first
6 positions are undefined and position `i ≥ 6` is the mean of elements
`i-6..i`; under the partial policy (`min_periods=1`, lines 96-97) every
position is the mean of the available trailing elements
`max(0, i-6)..i`.  On `[7,7,7]` the partial policy yields
`[7.0, 7.0, 7.0]` and the strict policy `[undefined, undefined,
undefined]`. -/
theorem rollingMean_policies (xs : List ℚ) :
    ((rollingMean 7 7 xs).length = xs.length ∧
      (rollingMean 7 1 xs).length = xs.length) ∧
    (∀ i, i < xs.length →
      (i < 6 → (rollingMean 7 7 xs).getD i none = none) ∧
      (6 ≤ i → (rollingMean 7 7 xs).getD i none =
        some (((xs.drop (i - 6)).take 7).sum / 7)) ∧
      (rollingMean 7 1 xs).getD i none =
        some (((xs.drop (i - 6)).take (min 7 (i + 1))).sum / ((min 7 (i + 1) : ℕ) : ℚ))) ∧
    (rollingMean 7 1 [7, 7, 7] = [some 7, some 7, some 7] ∧
      rollingMean 7 7 [7, 7, 7] = [none, none, none]) := by
  refine ⟨⟨rollingMean_length 7 7 xs, rollingMean_length 7 1 xs⟩, ?_, ?_, ?_⟩
  · intro i hi
    have hw := win_length 7 xs i hi
    have he := win_eq 7 xs i
    have h76 : i + 1 - 7 = i - 6 := by omega
    refine ⟨?_, ?_, ?_⟩
    · intro h6
      rw [rollingMean_getD 7 7 xs i hi, if_neg (by rw [hw]; omega)]
    · intro h6
      have h7 : (min 7 (i + 1)) = 7 := by omega
      rw [rollingMean_getD 7 7 xs i hi, if_pos (by rw [hw]; omega)]
      rw [he] at hw ⊢
      rw [hw, h76, h7]
      norm_num
    · rw [rollingMean_getD 7 1 xs i hi, if_pos (by rw [hw]; omega)]
      rw [he] at hw ⊢
      rw [hw, h76]
  · norm_num [rollingMean, List.range_succ]
  · norm_num [rollingMean, List.range_succ]

/-- C5 witness: on `[1..7]` the strict window is defined only at index 6
with mean 4, and on `[7,7,7]` the partial policy gives all `7`s. -/
theorem rollingMean_policies_witness :
    (rollingMean 7 7 [1, 2, 3, 4, 5, 6, 7]).getD 6 none = some 4 ∧
      rollingMean 7 1 [7, 7, 7] = [some 7, some 7, some 7] := by
  constructor
  · have h2 := ((rollingMean_policies [1, 2, 3, 4, 5, 6, 7]).2.1 6 (by norm_num)).2.1
      (by norm_num)
    rw [h2]
    norm_num
  · exact (rollingMean_policies [7, 7, 7]).2.2.1

/-! ### Grouped rolling lemmas -/

lemma groupKey_mkRow (k : String × String) (v : ℚ) : groupKey (mkRow k v) = k := by
  simp [groupKey, mkRow]

lemma filter_mkRow_self (k : String × String) (vs : List ℚ) :
    (vs.map (mkRow k)).filter (fun r => decide (groupKey r = k)) = vs.map (mkRow k) := by
  rw [List.filter_eq_self]
  intro r hr
  obtain ⟨v, _, rfl⟩ := List.mem_map.mp hr
  simp [groupKey_mkRow]

lemma filter_mkRow_other (k k' : String × String) (hne : k ≠ k') (vs : List ℚ) :
    (vs.map (mkRow k)).filter (fun r => decide (groupKey r = k')) = [] := by
  rw [List.filter_eq_nil_iff]
  intro r hr
  obtain ⟨v, _, rfl⟩ := List.mem_map.mp hr
  simp [groupKey_mkRow, hne]

lemma groupSeries_pair_left (as bs : List ℚ) (ka kb : String × String) (hne : ka ≠ kb) :
    groupSeries (as.map (mkRow ka) ++ bs.map (mkRow kb)) ka = as := by
  rw [groupSeries, List.filter_append, filter_mkRow_self,
    filter_mkRow_other kb ka (Ne.symm hne), List.append_nil, List.map_map]
  simp [mkRow, Function.comp_def]

lemma groupSeries_pair_right (as bs : List ℚ) (ka kb : String × String) (hne : ka ≠ kb) :
    groupSeries (as.map (mkRow ka) ++ bs.map (mkRow kb)) kb = bs := by
  rw [groupSeries, List.filter_append, filter_mkRow_self,
    filter_mkRow_other ka kb hne, List.nil_append, List.map_map]
  simp [mkRow, Function.comp_def]

lemma pair_getD_left (as bs : List ℚ) (ka kb : String × String) (j : ℕ)
    (hj : j < as.length) :
    (as.map (mkRow ka) ++ bs.map (mkRow kb)).getD j default =
      mkRow ka (as.getD j default) := by
  rw [List.getD_append _ _ _ j (by simpa using hj),
    List.getD_eq_getElem _ _ (by simpa using hj), List.getElem_map,
    List.getD_eq_getElem _ _ hj]

lemma pair_getD_right (as bs : List ℚ) (ka kb : String × String) (j : ℕ)
    (hj1 : as.length ≤ j) (hj2 : j < as.length + bs.length) :
    (as.map (mkRow ka) ++ bs.map (mkRow kb)).getD j default =
      mkRow kb (bs.getD (j - as.length) default) := by
  rw [List.getD_append_right _ _ _ j (by simpa using hj1), List.length_map,
    List.getD_eq_getElem _ _ (by simp; omega), List.getElem_map,
    List.getD_eq_getElem _ _ (by omega)]

lemma posInGroup_pair_left (as bs : List ℚ) (ka kb : String × String)
    (j : ℕ) (hj : j < as.length) :
    posInGroup (as.map (mkRow ka) ++ bs.map (mkRow kb)) j = j := by
  rw [posInGroup, pair_getD_left as bs ka kb j hj, groupKey_mkRow]
  rw [List.take_append_eq_append_take, List.filter_append]
  rw [show (j + 1) - (as.map (mkRow ka)).length = 0 by simp; omega]
  rw [List.take_zero, List.filter_nil, List.append_nil]
  rw [← List.map_take, filter_mkRow_self]
  simp
  omega

lemma posInGroup_pair_right (as bs : List ℚ) (ka kb : String × String) (hne : ka ≠ kb)
    (j : ℕ) (hj1 : as.length ≤ j) (hj2 : j < as.length + bs.length) :
    posInGroup (as.map (mkRow ka) ++ bs.map (mkRow kb)) j = j - as.length := by
  rw [posInGroup, pair_getD_right as bs ka kb j hj1 hj2, groupKey_mkRow]
  rw [List.take_append_eq_append_take, List.filter_append]
  rw [show List.take (j + 1) (as.map (mkRow ka)) = as.map (mkRow ka) from
    List.take_of_length_le (by simp; omega)]
  rw [filter_mkRow_other ka kb hne, List.nil_append]
  rw [← List.map_take, filter_mkRow_self]
  simp
  omega

lemma getElem?_eq_some_getD {α : Type} [Inhabited α] (l : List α) (d : α) (j : ℕ)
    (hj : j < l.length) : l[j]? = some (l.getD j d) := by
  rw [List.getElem?_eq_getElem hj, List.getD_eq_getElem _ _ hj]

/-- C6: the grouped rolling average over the concatenation of two areas'
record sets equals the concatenation of the rolling averages of each
area's series alone — no output mixes samples of two areas. -/
theorem groupedRollingMean_no_mixing (as bs : List ℚ) (ka kb : String × String)
    (hne : ka ≠ kb) :
    groupedRollingMean (as.map (mkRow ka) ++ bs.map (mkRow kb)) =
      rollingMean 7 1 as ++ rollingMean 7 1 bs := by
  have hlen : (as.map (mkRow ka) ++ bs.map (mkRow kb)).length = as.length + bs.length := by
    simp
  apply List.ext_getElem?
  intro j
  by_cases hj : j < as.length + bs.length
  · rw [groupedRollingMean, List.getElem?_map, List.getElem?_range (by rw [hlen]; exact hj)]
    rw [Option.map_some']
    by_cases hja : j < as.length
    · rw [pair_getD_left as bs ka kb j hja, groupKey_mkRow,
        groupSeries_pair_left as bs ka kb hne,
        posInGroup_pair_left as bs ka kb j hja]
      rw [List.getElem?_append_left (by rw [rollingMean_length]; exact hja)]
      rw [getElem?_eq_some_getD _ none j (by rw [rollingMean_length]; exact hja)]
    · push_neg at hja
      rw [pair_getD_right as bs ka kb j hja hj, groupKey_mkRow,
        groupSeries_pair_right as bs ka kb hne,
        posInGroup_pair_right as bs ka kb hne j hja hj]
      rw [List.getElem?_append_right (by rw [rollingMean_length]; exact hja)]
      rw [rollingMean_length]
      rw [getElem?_eq_some_getD _ none (j - as.length)
        (by rw [rollingMean_length]; omega)]
  · push_neg at hj
    rw [List.getElem?_eq_none (by rw [groupedRollingMean]; simp [hlen]; omega),
      List.getElem?_eq_none (by simp [rollingMean_length]; omega)]

/-- C6 witness: area A's `[10 × 7]` concatenated with area B's `[0 × 7]`
rolls to `10` for all of A's outputs and `0` for all of B's. -/
theorem groupedRollingMean_no_mixing_witness :
    groupedRollingMean
        (([10, 10, 10, 10, 10, 10, 10] : List ℚ).map (mkRow ("North West", "E12000002")) ++
          (([0, 0, 0, 0, 0, 0, 0] : List ℚ).map (mkRow ("London", "E12000007")))) =
      ([some 10, some 10, some 10, some 10, some 10, some 10, some 10] : List (Option ℚ)) ++
        [some 0, some 0, some 0, some 0, some 0, some 0, some 0] := by
  rw [groupedRollingMean_no_mixing _ _ _ _ (by decide)]
  congr 1 <;> norm_num [rollingMean, List.range_succ]

end UKCovid

namespace UKCovid

/-! ### Rate normalization, weekly totals, population index -/

/-- C7: rate normalization preserves length and, per row, computes
`rate = value / population * 100000` exactly when the area's population
is found (value 70 with population 1,000,000 gives 7), leaves the rate
undefined (`NaN`, modelled `none` — not zero) when the area code is
absent from the population index, raises no error, and leaves every
other row's normalization untouched. -/
theorem normalize_rate_policy (idx : List (String × ℚ)) (rows : List SmoothedRow) :
    (normalize idx rows).length = rows.length ∧
    (∀ j, j < rows.length →
      ((normalize idx rows).getD j default).1 = rows.getD j default ∧
      (∀ p, popLookup idx (rows.getD j default).area_code = some p →
        ((normalize idx rows).getD j default).2 =
          some ((rows.getD j default).smoothed / p * 100000)) ∧
      (popLookup idx (rows.getD j default).area_code = none →
        ((normalize idx rows).getD j default).2 = none)) ∧
    normalize [("E1", 1000000)] [⟨"E1", 70⟩, ⟨"E2", 3⟩] =
      [(⟨"E1", 70⟩, some 7), (⟨"E2", 3⟩, none)] := by
  refine ⟨by simp [normalize], ?_, ?_⟩
  · intro j hj
    have hn : (normalize idx rows).getD j default =
        (rows.getD j default,
          (popLookup idx (rows.getD j default).area_code).map
            (fun p => (rows.getD j default).smoothed / p * 100000)) := by
      rw [normalize, List.getD_eq_getElem _ _ (by simpa [normalize] using hj),
        List.getElem_map, List.getD_eq_getElem _ _ hj]
    refine ⟨by rw [hn], ?_, ?_⟩
    · intro p hp
      rw [hn]
      show (Option.map _ _) = _
      rw [hp, Option.map_some']
    · intro hp
      rw [hn]
      show (Option.map _ _) = _
      rw [hp, Option.map_none']
  · norm_num [normalize, popLookup, List.find?]
    rfl

/-- C7 witness: with the one-entry index `E1 ↦ 1,000,000`, the `E1` row
with value 70 normalizes to rate 7 and the `E2` row's rate is undefined. -/
theorem normalize_rate_policy_witness :
    ((normalize [("E1", 1000000)] [⟨"E1", 70⟩, ⟨"E2", 3⟩]).getD 0 default).2 = some 7 ∧
      ((normalize [("E1", 1000000)] [⟨"E1", 70⟩, ⟨"E2", 3⟩]).getD 1 default).2 = none := by
  have h := normalize_rate_policy [("E1", 1000000)] [⟨"E1", 70⟩, ⟨"E2", 3⟩]
  constructor
  · have h0 := (h.2.1 0 (by norm_num)).2.1 1000000 (by rfl)
    rw [h0]
    norm_num [List.getD]
  · exact (h.2.1 1 (by norm_num)).2.2 (by rfl)

/-- `find?` over a keyed table built by mapping a function over a key
list returns the entry of any present key. -/
lemma find_map_of_mem {α β : Type} [DecidableEq α] (keys : List α) (f : α → β) (k : α)
    (hk : k ∈ keys) :
    (keys.map (fun x => (x, f x))).find? (fun p => decide (p.1 = k)) = some (k, f k) := by
  induction keys with
  | nil => cases hk
  | cons a l ih =>
    rw [List.map_cons, List.find?_cons]
    by_cases ha : a = k
    · subst ha; simp
    · rcases List.mem_cons.mp hk with rfl | hk'
      · exact absurd rfl ha
      · simpa [ha] using ih hk'

/-- `iloc[-7:].sum()` is the sum of the last 7 values. -/
lemma weeklyTotal_last7 (xs : List ℚ) : weeklyTotal xs = (xs.reverse.take 7).sum := by
  rw [weeklyTotal, List.take_reverse, List.sum_reverse]

/-- C8: for every area group, the weekly aggregation returns the sum of
the values of the last 7 rows of that area's date-sorted series (a
row-count trailing window), and for an area with fewer than 7 rows it
returns the sum of all its rows without error. -/
theorem councilWeek_trailing_seven (rows : List AreaRow) (k : String × String)
    (hk : k ∈ councilKeys rows) :
    ((councilWeek rows).find? (fun p => decide (p.1 = k)) =
      some (k, ((groupSeries rows k).reverse.take 7).sum)) ∧
    ((groupSeries rows k).length < 7 →
      (councilWeek rows).find? (fun p => decide (p.1 = k)) =
        some (k, (groupSeries rows k).sum)) := by
  have h1 := find_map_of_mem (councilKeys rows)
    (fun k => weeklyTotal (groupSeries rows k)) k hk
  dsimp only at h1
  constructor
  · rw [councilWeek, h1, weeklyTotal_last7]
  · intro hlen
    rw [councilWeek, h1]
    have h2 : weeklyTotal (groupSeries rows k) = (groupSeries rows k).sum := by
      rw [weeklyTotal, show (groupSeries rows k).length - 7 = 0 by omega, List.drop_zero]
    rw [h2]

/-- C8 witness: an area with exactly 3 rows of value 5 each totals 15. -/
theorem councilWeek_trailing_seven_witness :
    (councilWeek rows3).find? (fun p => decide (p.1 = ("A", "E1"))) =
      some (("A", "E1"), 15) := by
  have h := (councilWeek_trailing_seven rows3 ("A", "E1") (by decide)).2 (by decide)
  rw [h]
  norm_num [rows3, groupSeries, groupKey, List.filter]

/-- C9: the population index sums the population values of all rows
sharing an area code — looking up any code present in the table returns
the total over that code's rows — and the index has exactly one entry
per distinct area code (its key column is duplicate-free and carries
exactly the distinct input codes). -/
theorem buildIndex_sums_by_code (tbl : List (String × ℚ)) (c : String)
    (hc : c ∈ tbl.map Prod.fst) :
    popLookup (buildIndex tbl) c =
      some (((tbl.filter (fun p => decide (p.1 = c))).map Prod.snd).sum) ∧
    ((buildIndex tbl).map Prod.fst).Nodup ∧
    (∀ d, d ∈ (buildIndex tbl).map Prod.fst ↔ d ∈ tbl.map Prod.fst) := by
  refine ⟨?_, ?_, ?_⟩
  · rw [popLookup, buildIndex,
      find_map_of_mem _ _ c (List.mem_dedup.mpr hc), Option.map_some']
  · rw [buildIndex, List.map_map]
    simpa [Function.comp_def] using (tbl.map Prod.fst).nodup_dedup
  · intro d
    rw [buildIndex, List.map_map]
    simp [Function.comp_def, List.mem_dedup]

/-- C9 witness: with rows `A ↦ 1`, `B ↦ 10`, `A ↦ 2` the lookup for `A`
returns the summed total 3. -/
theorem buildIndex_sums_by_code_witness :
    popLookup (buildIndex [("A", 1), ("B", 10), ("A", 2)]) "A" = some 3 := by
  have h := (buildIndex_sums_by_code [("A", 1), ("B", 10), ("A", 2)] "A" (by decide)).1
  rw [h]
  have hb : decide ("B" = "A") = false := by rfl
  have ha : decide ("A" = "A") = true := by rfl
  norm_num [List.filter, hb, ha]

end UKCovid
